import Mathlib

/-!
Shallow embedding of `src/objects-tasks.js` (core-js-objects).

JavaScript plain objects are modelled as association lists with string keys
and integer values (the exercises only store primitive numeric values; `NaN`
and stored `undefined` are outside the model).  Property access `obj[k]`
is `alookup`, which yields `none` for a missing key (JS `undefined`).
Reference semantics, where a claim depends on aliasing or in-place
mutation, is modelled by an explicit store (a list indexed by references).
-/

/-- Decidable equality on `Except`, used to evaluate the builder model on
concrete chains. -/
instance {ε α : Type} [DecidableEq ε] [DecidableEq α] :
    DecidableEq (Except ε α) := fun x y =>
  match x, y with
  | .error a, .error b =>
    if h : a = b then isTrue (by rw [h]) else isFalse (by simp [h])
  | .ok a, .ok b =>
    if h : a = b then isTrue (by rw [h]) else isFalse (by simp [h])
  | .error _, .ok _ => isFalse (by simp)
  | .ok _, .error _ => isFalse (by simp)

namespace ObjectsTasks

/-- Association-list lookup: JS property read `obj[k]`, `none` = `undefined`. -/
def alookup {κ ν : Type} [DecidableEq κ] : List (κ × ν) → κ → Option ν
  | [], _ => none
  | p :: rest, k => if p.1 = k then some p.2 else alookup rest k

/-- Association-list value update at an existing key: JS assignment to a key
that is already present keeps the position of the key. If the key is absent
this is the identity. -/
def aset {κ ν : Type} [DecidableEq κ] : List (κ × ν) → κ → ν → List (κ × ν)
  | [], _, _ => []
  | p :: rest, k, v => if p.1 = k then (k, v) :: rest else p :: aset rest k v

/-- Key list of an association list, in insertion order (JS `Object.keys`). -/
def akeys {κ ν : Type} : List (κ × ν) → List κ := List.map Prod.fst

/-- JS assignment `obj[k] = v`: update in place when the key exists,
append at the end otherwise. -/
def upsert {κ ν : Type} [DecidableEq κ] (o : List (κ × ν)) (k : κ) (v : ν) :
    List (κ × ν) :=
  match alookup o k with
  | some _ => aset o k v
  | none => o ++ [(k, v)]

/-- Accumulate a key at the end of a key list unless it is already present:
the key order produced by repeated JS assignments. -/
def insKey {κ : Type} [DecidableEq κ] (ks : List κ) (k : κ) : List κ :=
  if k ∈ ks then ks else ks ++ [k]

/-- First-seen deduplication of a key list: the order in which distinct keys
first appear. -/
def firstSeen {κ : Type} [DecidableEq κ] (l : List κ) : List κ :=
  l.foldl insKey []

/-- A JS plain object of the exercises: string keys, numeric values. -/
abbrev Obj := List (String × Int)

/-- A heap of objects; a JS object reference is an index into the store. -/
abbrev ObjStore := List Obj

/-! ### mergeObjects (source lines 36-48) -/

/-- Truthiness of a JS property read with numeric values: `undefined` and `0`
are falsy. -/
def jsTruthy : Option Int → Bool
  | none => false
  | some w => w != 0

/-- One entry of the `mergeObjects` inner loop:
`if (mergedObj[key]) { mergedObj[key] += value } else { mergedObj[key] = value }`.
A stored `0` is falsy, so it takes the plain-assignment branch, which still
lands at the existing position of the key. -/
def mergeStep (mergedObj : Obj) (kv : String × Int) : Obj :=
  if jsTruthy (alookup mergedObj kv.1) then
    aset mergedObj kv.1 ((alookup mergedObj kv.1).getD 0 + kv.2)
  else
    match alookup mergedObj kv.1 with
    | some _ => aset mergedObj kv.1 kv.2
    | none => mergedObj ++ [kv]

/-- `mergeObjects`: fold the entries of each object in order into an
initially empty accumulator. -/
def mergeObjects (objects : List Obj) : Obj :=
  objects.foldl (fun mergedObj obj => obj.foldl mergeStep mergedObj) []

/-- Total value of a key across a list of objects: the sum of the values of
all entries carrying that key, in entry order. -/
def totalVal (objects : List Obj) (k : String) : Int :=
  ((objects.flatten.filter (fun p => p.1 = k)).map Prod.snd).sum

/-! ### removeProperties (source lines 63-69) -/

/-- JS `delete obj[k]`. -/
def deleteKey (o : Obj) (k : String) : Obj :=
  o.filter (fun p => p.1 ≠ k)

/-- `removeProperties(obj, keys)`: `objCorrected` aliases the argument, the
keys are deleted from it in place, and the very same reference is returned.
The store captures the aliasing: the object at the input reference is
overwritten and the input reference itself is the result. -/
def removeProperties (store : ObjStore) (obj : Nat) (keys : List String) :
    ObjStore × Nat :=
  let objCorrected := store.getD obj []
  let objCorrected := keys.foldl deleteKey objCorrected
  (store.set obj objCorrected, obj)

/-! ### compareObjects (source lines 83-88) -/

/-- `compareObjects(obj1, obj2)`: false when the key counts differ, otherwise
every key of `obj1` must read back strictly equal from both objects
(`undefined` from a missing key compares unequal to any number). -/
def compareObjects (obj1 obj2 : Obj) : Bool :=
  let keyA := akeys obj1
  let keyB := akeys obj2
  if keyA.length ≠ keyB.length then false
  else keyA.all (fun key => alookup obj1 key == alookup obj2 key)

/-! ### makeImmutable (source lines 121-123) -/

/-- A JS object together with its frozen capability flag
(`Object.isFrozen`). -/
structure JSObj where
  entries : Obj
  frozen : Bool
deriving DecidableEq

/-- `makeImmutable(obj)`: `Object.freeze(obj)` sets the frozen flag of the
object and returns it. -/
def makeImmutable (obj : JSObj) : JSObj :=
  JSObj.mk obj.entries true

/-- ECMAScript non-strict property assignment `obj[k] = v` (the source file
is a CommonJS module without a strict-mode directive): on a frozen object
the write is silently ignored, otherwise it updates or appends the key. -/
def jsAssign (obj : JSObj) (k : String) (v : Int) : JSObj :=
  if obj.frozen then obj else JSObj.mk (upsert obj.entries k v) obj.frozen

/-- ECMAScript non-strict property deletion `delete obj[k]`: silently
ignored on a frozen object. -/
def jsDeleteProp (obj : JSObj) (k : String) : JSObj :=
  if obj.frozen then obj else JSObj.mk (deleteKey obj.entries k) obj.frozen

/-! ### sellTickets (source lines 159-191) -/

/-- The till of the ticket seller: counts of 25 and 50 bills in hand.  The
source also writes `payments[100] += 1` after serving a 100, but that key
starts `undefined`, becomes `NaN`, and is never read, so it does not affect
the result. -/
structure Till where
  c25 : Nat
  c50 : Nat
deriving DecidableEq

/-- The change loop `while (rest > 0 && payments[25] > 0)`: hand out 25s
until the rest is gone or the till has no 25 left.  Returns the remaining
rest and the remaining count of 25s.  The loop decrements the 25-count by
one each iteration, so the recursion is on that count. -/
def drain : Nat → Nat → Nat × Nat
  | rest, 0 => (rest, 0)
  | rest, c + 1 => if rest > 0 then drain (rest - 25) c else (rest, c + 1)

/-- One iteration of the `sellTickets` loop: serve a single bill, `none`
meaning the `return false` path. -/
def serveBill (t : Till) (bill : Nat) : Option Till :=
  match bill with
  | 100 =>
    let broke := t.c50 > 0
    let rest0 := if broke then 75 - 50 else 75
    let c50x := if broke then t.c50 - 1 else t.c50
    let p := drain rest0 t.c25
    if p.1 ≠ 0 then none else some (Till.mk p.2 c50x)
  | 50 =>
    if t.c25 = 0 then none else some (Till.mk (t.c25 - 1) (t.c50 + 1))
  | _ => some (Till.mk (t.c25 + 1) t.c50)

/-- The `sellTickets` loop over the queue, short-circuiting to `false` when
a bill cannot be served. -/
def sellGo (t : Till) : List Nat → Bool
  | [] => true
  | b :: rest =>
    match serveBill t b with
    | none => false
    | some tx => sellGo tx rest

/-- `sellTickets(queue)`: the till starts empty. -/
def sellTickets (queue : List Nat) : Bool :=
  sellGo (Till.mk 0 0) queue

/-- Modelled from the claim wording: serve one bill, where a 25 is accepted,
a 50 needs one 25 of change, and a 100 needs exactly 75 of change made by
first breaking one 50 if available and filling the remainder with 25s. -/
def serveSpec (t : Till) : Nat → Option Till
  | 25 => some (Till.mk (t.c25 + 1) t.c50)
  | 50 => if 1 ≤ t.c25 then some (Till.mk (t.c25 - 1) (t.c50 + 1)) else none
  | 100 =>
    if 1 ≤ t.c50 then
      if 1 ≤ t.c25 then some (Till.mk (t.c25 - 1) (t.c50 - 1)) else none
    else
      if 3 ≤ t.c25 then some (Till.mk (t.c25 - 3) t.c50) else none
  | _ => none

/-- Modelled from the claim wording: every bill in sequence must be served,
short-circuiting to false at the first unserviceable bill. -/
def sellSpecGo (t : Till) : List Nat → Bool
  | [] => true
  | b :: rest =>
    match serveSpec t b with
    | none => false
    | some tx => sellSpecGo tx rest

/-- Modelled from the claim wording: the whole queue against an empty till. -/
def sellSpec (queue : List Nat) : Bool :=
  sellSpecGo (Till.mk 0 0) queue

/-! ### group (source lines 313-326) -/

/-- JS `Map` construction from an entry list: `set` on an existing key
overwrites the value but keeps the original insertion position. -/
def mapSet {κ ν : Type} [DecidableEq κ] (m : List (κ × ν)) (k : κ) (v : ν) :
    List (κ × ν) :=
  match alookup m k with
  | some _ => aset m k v
  | none => m ++ [(k, v)]

/-- JS `new Map(entries)`. -/
def mapOfEntries {κ ν : Type} [DecidableEq κ] (entries : List (κ × ν)) :
    List (κ × ν) :=
  entries.foldl (fun m p => mapSet m p.1 p.2) []

/-- `group(array, keySelector, valueSelector)`: for every element, rescan
the whole input collecting the selected values of all elements sharing its
key, then pour the pairs into a `Map`. -/
def group {α κ β : Type} [DecidableEq κ]
    (array : List α) (keySelector : α → κ) (valueSelector : α → β) :
    List (κ × List β) :=
  let arrayMap := array.map (fun element =>
    (keySelector element,
      (array.filter (fun item =>
        keySelector element = keySelector item)).map valueSelector))
  mapOfEntries arrayMap

/-! ### sortCitiesArray (source lines 269-281) -/

/-- A record of the city-sorting exercise. -/
structure CityRec where
  country : String
  city : String
deriving DecidableEq

/-- JS `s[0]`: the first character of a string, `undefined` when empty. -/
def firstChar (s : String) : Option Char :=
  s.data.head?

/-- JS `===` between two single-character-or-undefined reads. -/
def jsCharEq : Option Char → Option Char → Bool
  | some a, some b => a = b
  | none, none => true
  | _, _ => false

/-- JS `>` between two single-character-or-undefined reads: any comparison
involving `undefined` is false. -/
def jsCharGT : Option Char → Option Char → Bool
  | some a, some b => b < a
  | _, _ => false

/-- The comparator of `sortCitiesArray`, literally: it never returns 0,
reporting `-1` even for fully tied records. -/
def cityCmp (a b : CityRec) : Int :=
  if jsCharEq (firstChar a.country) (firstChar b.country) then
    if jsCharGT (firstChar a.city) (firstChar b.city) then 1 else -1
  else
    if jsCharGT (firstChar a.country) (firstChar b.country) then 1 else -1

/-- The comparator read as a placement test: `a` may precede `b` when the
comparator does not order it strictly after `b`. -/
def jsSortLe (a b : CityRec) : Bool :=
  cityCmp a b ≤ 0

/-- Insert one record into an already comparator-ordered list. -/
def insertRec (x : CityRec) : List CityRec → List CityRec
  | [] => [x]
  | y :: ys => if jsSortLe x y then x :: y :: ys else y :: insertRec x ys

/-- Model of `Array.prototype.sort` with the comparator of
`sortCitiesArray`.  The comparator is inconsistent on ties (it reports
`-1` both ways), so ECMAScript leaves the order implementation-defined;
any comparison sort driven by this comparator orders the output by the
induced total preorder, and the model fixes insertion sort. -/
def jsSortCities : List CityRec → List CityRec
  | [] => []
  | x :: xs => insertRec x (jsSortCities xs)

/-- A heap of city arrays: `sortCitiesArray` aliases and mutates its
argument array. -/
abbrev CityStore := List (List CityRec)

/-- `sortCitiesArray(arr)`: sorts the aliased array in place and returns
the same reference. -/
def sortCitiesArray (store : CityStore) (arr : Nat) : CityStore × Nat :=
  let arrayToSort := store.getD arr []
  (store.set arr (jsSortCities arrayToSort), arr)

/-- The ordering the claim describes: ascending by country then city when
countries tie, comparing only the first character of each field. -/
def claimLe (a b : CityRec) : Prop :=
  a.country.data.headD ' ' < b.country.data.headD ' ' ∨
    (a.country.data.headD ' ' = b.country.data.headD ' ' ∧
      a.city.data.headD ' ' ≤ b.city.data.headD ' ')

/-- Nonempty country and city names: on empty fields the comparator reads
`undefined` and ECMAScript leaves the sort order implementation-defined. -/
def NEC (r : CityRec) : Prop :=
  r.country ≠ "" ∧ r.city ≠ ""

/-! ### cssSelectorBuilder (source lines 385-473)

The facade object and every builder object returned from a method hold a
`selectors` array.  `Object.assign(copyThis, this)` copies the array
reference into the copy, `copyThis.selectors.push(...)` appends through
that shared reference, and `this.selectors = []` then points the receiver
at a fresh empty array.  After a method returns, no two live builder
objects ever share an array, so a builder object is modelled as a
reference into a store of fragment lists: a method reads the fragment list
of the receiver, leaves the receiver holding an empty list, and allocates
the extended list for the returned object. -/

/-- One selector fragment: its text and its kind tag, exactly the
`{ selector, type }` record of the source. -/
structure Fragment where
  selector : String
  type : String
deriving DecidableEq

/-- The fixed kind order of the builder. -/
def order : List String :=
  ["element", "id", "class", "attr", "pseudoclass", "pseudoelement"]

/-- The message of the ordering error. -/
def orderErrMsg : String :=
  "Selector parts should be arranged in the following order: element, id, class, attribute, pseudo-class, pseudo-element"

/-- The message of the duplicate error (spelling as in the source). -/
def dupErrMsg : String :=
  "Element, id and pseudo-element should not occur more then one time inside the selector"

/-- `checkOrder(n)` throws: some kind at position `n` or later of `order`
already occurs among the accumulated fragments. -/
def checkOrderFails (selectors : List Fragment) (n : Nat) : Bool :=
  if selectors.length ≠ 0 then
    let lastElements := selectors.map Fragment.type
    (order.drop n).any (fun e => lastElements.contains e)
  else false

/-- `checkType(type)` throws: a fragment of that kind is already present. -/
def checkTypeFails (selectors : List Fragment) (t : String) : Bool :=
  (selectors.filter (fun e => e.type == t)).length ≥ 1

/-- The store of fragment lists; a builder object is an index into it.  The
module-initial state holds just the facade with an empty array. -/
abbrev SelStore := List (List Fragment)

/-- The facade `cssSelectorBuilder` before any call: object 0, empty list. -/
def initSt : SelStore := [[]]

/-- Shared tail of every fragment-adding method: append the new fragment
for the returned copy, leave the receiver with a fresh empty list.  The
returned object is the next free reference. -/
def pushFragment (o : Nat) (st : SelStore) (f : Fragment) : Nat × SelStore :=
  (st.length, (st.set o []) ++ [(st.getD o []) ++ [f]])

/-- `element(value)`: duplicate check first, then `checkOrder(1)`. -/
def element (o : Nat) (value : String) (st : SelStore) :
    Except String (Nat × SelStore) :=
  let fs := st.getD o []
  if checkTypeFails fs "element" then Except.error dupErrMsg
  else if checkOrderFails fs 1 then Except.error orderErrMsg
  else Except.ok (pushFragment o st (Fragment.mk value "element"))

/-- `id(value)`: duplicate check first, then `checkOrder(2)`. -/
def id (o : Nat) (value : String) (st : SelStore) :
    Except String (Nat × SelStore) :=
  let fs := st.getD o []
  if checkTypeFails fs "id" then Except.error dupErrMsg
  else if checkOrderFails fs 2 then Except.error orderErrMsg
  else Except.ok (pushFragment o st (Fragment.mk ("#" ++ value) "id"))

/-- `class(value)` (named `classSel` because `class` is reserved in Lean):
only `checkOrder(3)`. -/
def classSel (o : Nat) (value : String) (st : SelStore) :
    Except String (Nat × SelStore) :=
  let fs := st.getD o []
  if checkOrderFails fs 3 then Except.error orderErrMsg
  else Except.ok (pushFragment o st (Fragment.mk ("." ++ value) "class"))

/-- `attr(value)`: only `checkOrder(4)`. -/
def attr (o : Nat) (value : String) (st : SelStore) :
    Except String (Nat × SelStore) :=
  let fs := st.getD o []
  if checkOrderFails fs 4 then Except.error orderErrMsg
  else Except.ok (pushFragment o st (Fragment.mk ("[" ++ value ++ "]") "attr"))

/-- `pseudoClass(value)`: only `checkOrder(5)`. -/
def pseudoClass (o : Nat) (value : String) (st : SelStore) :
    Except String (Nat × SelStore) :=
  let fs := st.getD o []
  if checkOrderFails fs 5 then Except.error orderErrMsg
  else Except.ok (pushFragment o st (Fragment.mk (":" ++ value) "pseudoclass"))

/-- `pseudoElement(value)`: only the duplicate check, no order check. -/
def pseudoElement (o : Nat) (value : String) (st : SelStore) :
    Except String (Nat × SelStore) :=
  let fs := st.getD o []
  if checkTypeFails fs "pseudoelement" then Except.error dupErrMsg
  else Except.ok (pushFragment o st (Fragment.mk ("::" ++ value) "pseudoelement"))

/-- `combine(selector1, combinator, selector2)`, invoked on a receiver `o`:
pushes the fragments of both arguments around a combinator fragment onto
the receiver array, hands that array to the returned copy, and leaves the
receiver empty.  No check can fail. -/
def combine (o : Nat) (selector1 : Nat) (combinator : String)
    (selector2 : Nat) (st : SelStore) : Nat × SelStore :=
  let fs := st.getD o []
  let s1 := st.getD selector1 []
  let s2 := st.getD selector2 []
  (st.length,
    (st.set o []) ++
      [fs ++ s1 ++ [Fragment.mk (" " ++ combinator ++ " ") "combinator"] ++ s2])

/-- `stringify()`: join all fragment texts, then leave the receiver with a
fresh empty list. -/
def stringify (o : Nat) (st : SelStore) : String × SelStore :=
  let result := ((st.getD o []).map Fragment.selector).foldl (· ++ ·) ""
  (result, st.set o [])

/-- The six fragment-adding methods as one indexed family. -/
inductive SelKind : Type
  | element
  | id
  | classSel
  | attr
  | pseudoClass
  | pseudoElement
deriving DecidableEq

/-- The kind tag each method records. -/
def SelKind.typeName : SelKind → String
  | .element => "element"
  | .id => "id"
  | .classSel => "class"
  | .attr => "attr"
  | .pseudoClass => "pseudoclass"
  | .pseudoElement => "pseudoelement"

/-- The position of each kind in the fixed order. -/
def SelKind.orderIndex : SelKind → Nat
  | .element => 0
  | .id => 1
  | .classSel => 2
  | .attr => 3
  | .pseudoClass => 4
  | .pseudoElement => 5

/-- Dispatch a fragment-adding call by kind. -/
def fragmentCall : SelKind → Nat → String → SelStore →
    Except String (Nat × SelStore)
  | .element => element
  | .id => id
  | .classSel => classSel
  | .attr => attr
  | .pseudoClass => pseudoClass
  | .pseudoElement => pseudoElement

/-- Claim-language ordering violation: the accumulated list already holds a
fragment of a kind that comes strictly later in the fixed order than the
kind being added. -/
def laterKindPresent (k : SelKind) (fs : List Fragment) : Prop :=
  ∃ f ∈ fs, f.type ∈ order ∧ k.orderIndex < order.indexOf f.type

instance (k : SelKind) (fs : List Fragment) :
    Decidable (laterKindPresent k fs) := by
  unfold laterKindPresent
  infer_instance

/-- Claim-language duplicate violation: the kind is element, id or
pseudo-element and a fragment of the same kind is already accumulated. -/
def dupViolation (k : SelKind) (fs : List Fragment) : Prop :=
  (k = .element ∨ k = .id ∨ k = .pseudoElement) ∧
    ∃ f ∈ fs, f.type = k.typeName

instance (k : SelKind) (fs : List Fragment) :
    Decidable (dupViolation k fs) := by
  unfold dupViolation
  infer_instance

/-- The fragment text each method builds from its argument. -/
def kindText : SelKind → String → String
  | .element, v => v
  | .id, v => "#" ++ v
  | .classSel, v => "." ++ v
  | .attr, v => "[" ++ v ++ "]"
  | .pseudoClass, v => ":" ++ v
  | .pseudoElement, v => "::" ++ v

/-- Run a chain of fragment-adding calls starting at a given object and
store, each call on the object returned by the previous one; an error
aborts the rest of the chain. -/
def runFrom (o : Nat) (st : SelStore) (calls : List (SelKind × String)) :
    Except String (Nat × SelStore) :=
  calls.foldl
    (fun acc c => acc.bind (fun p => fragmentCall c.1 p.1 c.2 p.2))
    (Except.ok (o, st))

/-- Run a chain of fragment-adding calls, starting at the facade in the
module-initial state. -/
def runChain (calls : List (SelKind × String)) :
    Except String (Nat × SelStore) :=
  runFrom 0 initSt calls

/-- A chain respecting order and uniqueness: kinds never decrease in the
fixed order along the chain, and element, id and pseudo-element each occur
at most once. -/
def goodChain (ks : List SelKind) : Prop :=
  List.Pairwise (fun a b => a.orderIndex ≤ b.orderIndex) ks ∧
    ∀ k, (k = SelKind.element ∨ k = SelKind.id ∨ k = SelKind.pseudoElement) →
      ks.count k ≤ 1

/-! ## List index helpers -/

theorem getD_set_self {α : Type} (l : List α) (n : Nat) (x d : α) :
    (l.set n x).getD n d = if n < l.length then x else d := by
  induction l generalizing n with
  | nil => simp
  | cons a t ih =>
    cases n with
    | zero => simp
    | succ m => simpa using ih m

theorem getD_append_lt {α : Type} (l l2 : List α) (n : Nat) (d : α)
    (h : n < l.length) : (l ++ l2).getD n d = l.getD n d := by
  induction l generalizing n with
  | nil => simp at h
  | cons a t ih =>
    cases n with
    | zero => simp
    | succ m =>
      simp only [List.cons_append, List.getD_cons_succ]
      exact ih m (by simpa using h)

theorem getD_append_length {α : Type} (l : List α) (x d : α) :
    (l ++ [x]).getD l.length d = x := by
  induction l with
  | nil => simp
  | cons a t ih =>
    simp only [List.cons_append, List.length_cons, List.getD_cons_succ]
    exact ih

/-! ## Association-list lemmas -/

theorem alookup_eq_none {κ ν : Type} [DecidableEq κ] (l : List (κ × ν))
    (k : κ) : alookup l k = none ↔ k ∉ akeys l := by
  induction l with
  | nil => simp [alookup, akeys]
  | cons p rest ih =>
    by_cases h : p.1 = k
    · simp [alookup, akeys, h]
    · simp [alookup, akeys, h, ih]
      intro hk
      exact fun he => h he.symm

theorem mem_of_alookup_some {κ ν : Type} [DecidableEq κ]
    {l : List (κ × ν)} {k : κ} {v : ν} (h : alookup l k = some v) :
    k ∈ akeys l := by
  by_contra hk
  rw [← alookup_eq_none l k] at hk
  rw [h] at hk
  exact Option.noConfusion hk

theorem alookup_isSome_of_mem {κ ν : Type} [DecidableEq κ]
    {l : List (κ × ν)} {k : κ} (h : k ∈ akeys l) :
    ∃ v, alookup l k = some v := by
  cases hv : alookup l k with
  | none => exact absurd ((alookup_eq_none l k).mp hv) (by simp [h])
  | some v => exact ⟨v, rfl⟩

theorem akeys_aset {κ ν : Type} [DecidableEq κ] (l : List (κ × ν))
    (k : κ) (v : ν) : akeys (aset l k v) = akeys l := by
  induction l with
  | nil => simp [aset]
  | cons p rest ih =>
    by_cases h : p.1 = k
    · simp [aset, akeys, h]
    · simp [aset, akeys, h]
      simp [akeys] at ih
      exact ih

theorem alookup_aset_self {κ ν : Type} [DecidableEq κ]
    {l : List (κ × ν)} {k : κ} {w : ν} (h : alookup l k = some w) (v : ν) :
    alookup (aset l k v) k = some v := by
  induction l with
  | nil => simp [alookup] at h
  | cons p rest ih =>
    by_cases hp : p.1 = k
    · simp [aset, hp, alookup]
    · simp [alookup, hp] at h
      simp [aset, hp, alookup, ih h]

theorem alookup_aset_ne {κ ν : Type} [DecidableEq κ]
    (l : List (κ × ν)) (k kx : κ) (v : ν) (h : kx ≠ k) :
    alookup (aset l k v) kx = alookup l kx := by
  induction l with
  | nil => simp [aset]
  | cons p rest ih =>
    by_cases hp : p.1 = k
    · have hk : k ≠ kx := fun he => h he.symm
      simp [aset, hp, alookup, hk]
    · simp [aset, hp, alookup]
      by_cases hx : p.1 = kx
      · simp [hx]
      · simp [hx, ih]

theorem alookup_append_right {κ ν : Type} [DecidableEq κ]
    {l : List (κ × ν)} {k : κ} (h : alookup l k = none) (v : ν) :
    alookup (l ++ [(k, v)]) k = some v := by
  induction l with
  | nil => simp [alookup]
  | cons p rest ih =>
    by_cases hp : p.1 = k
    · simp [alookup, hp] at h
    · simp [alookup, hp] at h ⊢
      exact ih h

theorem alookup_append_ne {κ ν : Type} [DecidableEq κ]
    (l : List (κ × ν)) (e : κ × ν) (k : κ) (h : e.1 ≠ k) :
    alookup (l ++ [e]) k = alookup l k := by
  induction l with
  | nil => simp [alookup, h]
  | cons p rest ih =>
    by_cases hp : p.1 = k
    · simp [alookup, hp]
    · simp [alookup, hp, ih]

theorem akeys_append {κ ν : Type} (l : List (κ × ν)) (e : κ × ν) :
    akeys (l ++ [e]) = akeys l ++ [e.1] := by
  simp [akeys]

theorem mem_akeys_iff_insKey {κ : Type} [DecidableEq κ] (ks : List κ)
    (k kx : κ) : kx ∈ insKey ks k ↔ kx ∈ ks ∨ kx = k := by
  by_cases h : k ∈ ks
  · rw [insKey, if_pos h]
    constructor
    · exact Or.inl
    · rintro (hx | rfl)
      · exact hx
      · exact h
  · simp [insKey, h]

theorem nodup_insKey {κ : Type} [DecidableEq κ] {ks : List κ}
    (h : ks.Nodup) (k : κ) : (insKey ks k).Nodup := by
  by_cases hm : k ∈ ks
  · simpa [insKey, hm] using h
  · rw [insKey, if_neg hm]
    refine List.Nodup.append h (List.nodup_singleton k) ?_
    intro a ha hb
    rw [List.mem_singleton] at hb
    rw [hb] at ha
    exact hm ha

theorem nodup_foldl_insKey {κ : Type} [DecidableEq κ] (l : List κ) :
    ∀ ks : List κ, ks.Nodup → (l.foldl insKey ks).Nodup := by
  induction l with
  | nil => intro ks h; simpa using h
  | cons a t ih =>
    intro ks h
    exact ih (insKey ks a) (nodup_insKey h a)

theorem nodup_firstSeen {κ : Type} [DecidableEq κ] (l : List κ) :
    (firstSeen l).Nodup :=
  nodup_foldl_insKey l [] List.nodup_nil

/-! ## mergeObjects lemmas -/

theorem alookup_mergeStep_self (acc : Obj) (kv : String × Int) :
    alookup (mergeStep acc kv) kv.1 =
      some ((alookup acc kv.1).getD 0 + kv.2) := by
  unfold mergeStep
  cases hl : alookup acc kv.1 with
  | none =>
    have ht : jsTruthy none = false := rfl
    simp only [hl, ht, Bool.false_eq_true, if_false]
    have h2 := alookup_append_right hl kv.2
    simpa using h2
  | some w =>
    by_cases hw : w = 0
    · subst hw
      have ht : jsTruthy (some 0) = false := rfl
      simp only [hl, ht, Bool.false_eq_true, if_false]
      simp [alookup_aset_self hl]
    · have ht : jsTruthy (some w) = true := by simp [jsTruthy, hw]
      simp only [hl, ht, if_true]
      simp [alookup_aset_self hl]

theorem alookup_mergeStep_ne (acc : Obj) (kv : String × Int) (k : String)
    (h : k ≠ kv.1) : alookup (mergeStep acc kv) k = alookup acc k := by
  unfold mergeStep
  split
  · exact alookup_aset_ne _ _ _ _ h
  · cases hl : alookup acc kv.1 with
    | some w => exact alookup_aset_ne _ _ _ _ h
    | none => exact alookup_append_ne acc kv k (fun he => h he.symm)

theorem akeys_mergeStep (acc : Obj) (kv : String × Int) :
    akeys (mergeStep acc kv) = insKey (akeys acc) kv.1 := by
  unfold mergeStep insKey
  cases hl : alookup acc kv.1 with
  | none =>
    have hm : kv.1 ∉ akeys acc := (alookup_eq_none acc kv.1).mp hl
    simp [jsTruthy, hl, hm, akeys_append]
  | some w =>
    have hm : kv.1 ∈ akeys acc := mem_of_alookup_some hl
    by_cases hw : w = 0
    · subst hw
      simp [jsTruthy, hl, hm, akeys_aset]
    · simp [jsTruthy, hl, hw, hm, akeys_aset]

theorem alookup_foldl_mergeStep (es : List (String × Int)) :
    ∀ (acc : Obj) (k : String),
      alookup (es.foldl mergeStep acc) k =
        if (alookup acc k).isSome = true ∨ k ∈ es.map Prod.fst then
          some ((alookup acc k).getD 0 +
            ((es.filter (fun p => p.1 = k)).map Prod.snd).sum)
        else none := by
  induction es with
  | nil =>
    intro acc k
    cases h : alookup acc k <;> simp [h]
  | cons e rest ih =>
    intro acc k
    by_cases he : e.1 = k
    · rw [List.foldl_cons, ih]
      have hs := alookup_mergeStep_self acc e
      rw [he] at hs
      rw [hs]
      simp [he, add_assoc]
    · rw [List.foldl_cons, ih]
      rw [alookup_mergeStep_ne acc e k (fun hx => he hx.symm)]
      have hne : ¬(k = e.1) := fun hx => he hx.symm
      have hfilter : List.filter (fun p => decide (p.1 = k)) (e :: rest)
          = List.filter (fun p => decide (p.1 = k)) rest := by
        simp [List.filter_cons, he]
      rw [hfilter, List.map_cons]
      by_cases hs : (alookup acc k).isSome = true ∨ k ∈ List.map Prod.fst rest
      · rw [if_pos hs, if_pos]
        rcases hs with h | h
        · exact Or.inl h
        · exact Or.inr (List.mem_cons_of_mem _ h)
      · rw [if_neg hs, if_neg]
        intro hx
        rcases hx with h | h
        · exact hs (Or.inl h)
        · rcases List.mem_cons.mp h with h2 | h2
          · exact hne h2
          · exact hs (Or.inr h2)

theorem akeys_foldl_mergeStep (es : List (String × Int)) :
    ∀ acc : Obj, akeys (es.foldl mergeStep acc) =
      (es.map Prod.fst).foldl insKey (akeys acc) := by
  induction es with
  | nil => intro acc; rfl
  | cons e rest ih =>
    intro acc
    rw [List.foldl_cons, ih, List.map_cons, List.foldl_cons, akeys_mergeStep]

theorem mergeObjects_eq_flatten_foldl (objs : List Obj) :
    mergeObjects objs = objs.flatten.foldl mergeStep [] := by
  rw [mergeObjects, List.foldl_flatten]

theorem alookup_mergeObjects (objs : List Obj) (k : String) :
    alookup (mergeObjects objs) k =
      if k ∈ objs.flatten.map Prod.fst then some (totalVal objs k)
      else none := by
  rw [mergeObjects_eq_flatten_foldl, alookup_foldl_mergeStep]
  have h0 : alookup ([] : Obj) k = none := rfl
  rw [h0]
  simp only [Option.isSome_none, Bool.false_eq_true, false_or,
    Option.getD_none, zero_add]
  rfl

theorem akeys_mergeObjects (objs : List Obj) :
    akeys (mergeObjects objs) = firstSeen (objs.flatten.map Prod.fst) := by
  rw [mergeObjects_eq_flatten_foldl, akeys_foldl_mergeStep]
  rfl

theorem alookup_mergeObjects_perm {objs1 objs2 : List Obj}
    (h : objs1.Perm objs2) (k : String) :
    alookup (mergeObjects objs1) k = alookup (mergeObjects objs2) k := by
  have hf : objs1.flatten.Perm objs2.flatten := h.flatten
  have hsum : totalVal objs1 k = totalVal objs2 k := by
    unfold totalVal
    exact ((hf.filter (fun p => p.1 = k)).map Prod.snd).sum_eq
  rw [alookup_mergeObjects, alookup_mergeObjects]
  by_cases hm : k ∈ objs1.flatten.map Prod.fst
  · rw [if_pos hm, if_pos ((hf.map Prod.fst).mem_iff.mp hm), hsum]
  · rw [if_neg hm, if_neg (fun hx => hm ((hf.map Prod.fst).mem_iff.mpr hx))]

/-- C5: mergeObjects produces one entry per distinct key, keys in
first-seen order, each valued with the sum of the values of that key
across all inputs; key membership and per-key values are invariant under
permutation of the input list; and the two concrete examples of the claim
hold. -/
theorem mergeObjects_spec :
    (∀ (objs : List Obj) (k : String),
      alookup (mergeObjects objs) k =
        if k ∈ objs.flatten.map Prod.fst then some (totalVal objs k)
        else none)
  ∧ (∀ objs : List Obj,
      akeys (mergeObjects objs) = firstSeen (objs.flatten.map Prod.fst)
        ∧ (akeys (mergeObjects objs)).Nodup)
  ∧ (∀ objs1 objs2 : List Obj, objs1.Perm objs2 → ∀ k,
      alookup (mergeObjects objs1) k = alookup (mergeObjects objs2) k)
  ∧ mergeObjects [[("a", 1), ("b", 2)], [("b", 3), ("c", 5)]]
      = [("a", 1), ("b", 5), ("c", 5)]
  ∧ mergeObjects [] = [] := by
  refine ⟨alookup_mergeObjects, ?_, ?_, by decide, by decide⟩
  · intro objs
    refine ⟨akeys_mergeObjects objs, ?_⟩
    rw [akeys_mergeObjects objs]
    exact nodup_firstSeen _
  · intro objs1 objs2 h k
    exact alookup_mergeObjects_perm h k

/-- Witness for C5: the permutation-invariance conjunct applied to the two
concrete example inputs swapped. -/
theorem mergeObjects_spec_witness :
    alookup (mergeObjects [[("a", 1), ("b", 2)], [("b", 3), ("c", 5)]]) "b"
      = alookup (mergeObjects [[("b", 3), ("c", 5)], [("a", 1), ("b", 2)]]) "b" :=
  mergeObjects_spec.2.2.1 _ _ (by decide) "b"

/-! ## removeProperties lemmas -/

theorem getD_out_of_range {α : Type} (l : List α) (n : Nat) (d : α)
    (h : ¬n < l.length) : l.getD n d = d := by
  induction l generalizing n with
  | nil => simp
  | cons a t ih =>
    cases n with
    | zero => exact absurd (by simp) h
    | succ m =>
      simp only [List.getD_cons_succ]
      exact ih m (by simp at h; omega)

theorem foldl_deleteKey (keys : List String) :
    ∀ o : Obj, keys.foldl deleteKey o
      = o.filter (fun p => decide (p.1 ∉ keys)) := by
  induction keys with
  | nil => intro o; simp
  | cons k ks ih =>
    intro o
    rw [List.foldl_cons, ih (deleteKey o k)]
    unfold deleteKey
    rw [List.filter_filter]
    apply List.filter_congr
    intro x hx
    by_cases h1 : x.1 = k <;> by_cases h2 : x.1 ∈ ks <;> simp [h1, h2]

theorem alookup_filter_keys (o : Obj) (keys : List String) (k : String) :
    alookup (o.filter (fun p => decide (p.1 ∉ keys))) k
      = if k ∈ keys then none else alookup o k := by
  induction o with
  | nil => simp [alookup]
  | cons p rest ih =>
    by_cases hm : p.1 ∈ keys
    · have hdrop : List.filter (fun q => decide (q.1 ∉ keys)) (p :: rest)
          = List.filter (fun q => decide (q.1 ∉ keys)) rest := by
        simp [List.filter_cons, hm]
      rw [hdrop, ih]
      by_cases hk : k ∈ keys
      · simp [hk]
      · have hp : ¬(p.1 = k) := fun he => hk (he ▸ hm)
        simp [hk, alookup, hp]
    · have hkeep : List.filter (fun q => decide (q.1 ∉ keys)) (p :: rest)
          = p :: List.filter (fun q => decide (q.1 ∉ keys)) rest := by
        simp [List.filter_cons, hm]
      rw [hkeep]
      by_cases hp : p.1 = k
      · have hk : ¬(k ∈ keys) := by rw [← hp]; exact hm
        simp [alookup, hp, hk]
      · have hstep : alookup (p :: List.filter (fun q => decide (q.1 ∉ keys)) rest) k
            = alookup (List.filter (fun q => decide (q.1 ∉ keys)) rest) k := by
          simp [alookup, hp]
        rw [hstep, ih]
        by_cases hk : k ∈ keys
        · simp [hk]
        · simp [hk, alookup, hp]

/-- C3 counterexample: the call `removeProperties({a:1,b:2,c:3}, [b,c])`
leaves the object at the input reference equal to `{a:1}`, not to the
original `{a:1,b:2,c:3}` — the input object is not left unchanged. -/
theorem removeProperties_counterexample :
    ((removeProperties [[("a", 1), ("b", 2), ("c", 3)]] 0 ["b", "c"]).1.getD 0 []
      = [("a", 1)])
  ∧ ([(("a" : String), (1 : Int))]
      ≠ [(("a" : String), (1 : Int)), ("b", 2), ("c", 3)]) := by
  exact ⟨by decide, by decide⟩

/-- C3 amended: removeProperties returns the reference it was given, whose
object now equals the input with the listed keys removed (removing absent
keys is a no-op); the input object is mutated in place to that result
rather than left unchanged. -/
theorem removeProperties_amended :
    (∀ (store : ObjStore) (obj : Nat) (keys : List String),
      (removeProperties store obj keys).2 = obj
      ∧ (removeProperties store obj keys).1
          = store.set obj
              ((store.getD obj []).filter (fun p => decide (p.1 ∉ keys)))
      ∧ ∀ k, alookup ((removeProperties store obj keys).1.getD obj []) k
          = if k ∈ keys then none else alookup (store.getD obj []) k)
  ∧ ((removeProperties [[("a", 1), ("b", 2), ("c", 3)]] 0 ["b", "c"]).1.getD 0 []
      = [("a", 1)])
  ∧ ((removeProperties [[("a", 1), ("b", 2), ("c", 3)]] 0 ["d", "e"]).1.getD 0 []
      = [("a", 1), ("b", 2), ("c", 3)]) := by
  refine ⟨?_, by decide, by decide⟩
  intro store obj keys
  refine ⟨rfl, ?_, ?_⟩
  · show store.set obj (keys.foldl deleteKey (store.getD obj [])) = _
    rw [foldl_deleteKey]
  · intro k
    show alookup ((store.set obj
      (keys.foldl deleteKey (store.getD obj []))).getD obj []) k = _
    rw [foldl_deleteKey, getD_set_self]
    by_cases ho : obj < store.length
    · rw [if_pos ho, alookup_filter_keys]
    · rw [if_neg ho, getD_out_of_range store obj [] ho]
      simp [alookup]

/-! ## compareObjects lemmas -/

theorem compareObjects_refl (o : Obj) : compareObjects o o = true := by
  unfold compareObjects
  simp

theorem compareObjects_true_symm {a b : Obj} (ha : (akeys a).Nodup)
    (_hb : (akeys b).Nodup) (h : compareObjects a b = true) :
    compareObjects b a = true := by
  unfold compareObjects at h ⊢
  by_cases hlen : (akeys a).length ≠ (akeys b).length
  · rw [if_pos hlen] at h
    exact absurd h (by simp)
  · rw [if_neg hlen] at h
    push_neg at hlen
    rw [if_neg (fun hx => hx hlen.symm)]
    rw [List.all_eq_true] at h ⊢
    have hsub : akeys a ⊆ akeys b := by
      intro k hk
      obtain ⟨v, hv⟩ := alookup_isSome_of_mem hk
      have hkv := h k hk
      rw [hv] at hkv
      cases hbk : alookup b k with
      | none =>
        rw [hbk] at hkv
        exact absurd hkv (by simp)
      | some w => exact mem_of_alookup_some hbk
    have hperm : (akeys a).Perm (akeys b) :=
      (List.Nodup.subperm ha hsub).perm_of_length_le (le_of_eq hlen.symm)
    intro k hk
    have hka : k ∈ akeys a := hperm.mem_iff.mpr hk
    have h2 := h k hka
    rw [beq_iff_eq] at h2 ⊢
    exact h2.symm

/-- C4: compareObjects is reflexive, symmetric on objects with pairwise
distinct keys (as JS objects always have), and false whenever the key
counts differ. -/
theorem compareObjects_props :
    (∀ o : Obj, compareObjects o o = true)
  ∧ (∀ a b : Obj, (akeys a).Nodup → (akeys b).Nodup →
      compareObjects a b = compareObjects b a)
  ∧ (∀ a b : Obj, (akeys a).length ≠ (akeys b).length →
      compareObjects a b = false) := by
  refine ⟨compareObjects_refl, ?_, ?_⟩
  · intro a b ha hb
    cases hab : compareObjects a b with
    | true => exact (compareObjects_true_symm ha hb hab).symm
    | false =>
      cases hba : compareObjects b a with
      | false => rfl
      | true =>
        rw [compareObjects_true_symm hb ha hba] at hab
        simp at hab
  · intro a b h
    unfold compareObjects
    rw [if_pos h]

/-- Witness for C4: symmetry on two concrete nodup-key objects, and the
size-mismatch conjunct on concrete objects of different key counts. -/
theorem compareObjects_props_witness :
    compareObjects [("a", 1), ("b", 2)] [("b", 2), ("a", 1)]
      = compareObjects [("b", 2), ("a", 1)] [("a", 1), ("b", 2)]
  ∧ compareObjects [("a", 1)] [("a", 1), ("b", 2)] = false :=
  ⟨compareObjects_props.2.1 _ _ (by decide) (by decide),
   compareObjects_props.2.2 _ _ (by decide)⟩

/-! ## makeImmutable -/

/-- C8: after makeImmutable, property assignment (including addition of a
new property) and property deletion each return the object unchanged, and
no error is raised: the operations are total and silently ignored, the
non-strict-mode ECMAScript semantics of a frozen object. -/
theorem makeImmutable_spec :
    ∀ (obj : JSObj) (k : String) (v : Int),
      jsAssign (makeImmutable obj) k v = makeImmutable obj
      ∧ jsDeleteProp (makeImmutable obj) k = makeImmutable obj := by
  intro obj k v
  exact ⟨rfl, rfl⟩

/-! ## sellTickets lemmas -/

theorem drain_zero (c : Nat) : drain 0 c = (0, c) := by
  cases c with
  | zero => rfl
  | succ m => simp [drain]

theorem drain_25 (c : Nat) :
    drain 25 c = if 1 ≤ c then (0, c - 1) else (25, c) := by
  cases c with
  | zero => rfl
  | succ m => simp [drain, drain_zero]

theorem drain_75 (c : Nat) :
    drain 75 c = if 3 ≤ c then (0, c - 3) else (75 - 25 * c, 0) := by
  match c with
  | 0 => rfl
  | 1 => rfl
  | 2 => rfl
  | n + 3 =>
    simp [drain, drain_zero]

theorem serveBill_eq_serveSpec (t : Till) (b : Nat)
    (h : b = 25 ∨ b = 50 ∨ b = 100) : serveBill t b = serveSpec t b := by
  rcases h with rfl | rfl | rfl
  · rfl
  · unfold serveBill serveSpec
    by_cases h25 : t.c25 = 0
    · simp [h25]
    · simp [h25, Nat.one_le_iff_ne_zero]
  · unfold serveBill serveSpec
    by_cases h50 : t.c50 > 0
    · have h1 : 1 ≤ t.c50 := h50
      simp only [h50, if_true, h1]
      norm_num
      rw [drain_25]
      by_cases h25 : 1 ≤ t.c25
      · simp [h25]
      · simp [h25]
    · have h1 : ¬(1 ≤ t.c50) := h50
      simp only [h50, if_false, h1]
      rw [drain_75]
      by_cases h25 : 3 ≤ t.c25
      · simp [h25]
      · have hne : 75 - 25 * t.c25 ≠ 0 := by omega
        simp [h25, hne]

theorem sellGo_eq_sellSpecGo (q : List Nat) :
    ∀ t, (∀ b ∈ q, b = 25 ∨ b = 50 ∨ b = 100) →
      sellGo t q = sellSpecGo t q := by
  induction q with
  | nil => intro t _; rfl
  | cons b rest ih =>
    intro t h
    have hb := h b (List.mem_cons_self b rest)
    cases hM : serveBill t b with
    | none =>
      have hS : serveSpec t b = none := by
        rw [← serveBill_eq_serveSpec t b hb, hM]
      simp [sellGo, sellSpecGo, hM, hS]
    | some tx =>
      have hS : serveSpec t b = some tx := by
        rw [← serveBill_eq_serveSpec t b hb, hM]
      simp only [sellGo, sellSpecGo, hM, hS]
      exact ih tx (fun x hx => h x (List.mem_cons_of_mem _ hx))

/-- C2: sellTickets agrees with the change-making rule as the claim words
it (a 25 is accepted; a 50 requires a 25 in the till; a 100 requires
exactly 75 of change, breaking a 50 first if available and filling the
remainder with 25s), short-circuits to false at the first unserviceable
bill, and the two concrete examples hold. -/
theorem sellTickets_spec :
    (∀ q : List Nat, (∀ b ∈ q, b = 25 ∨ b = 50 ∨ b = 100) →
      sellTickets q = sellSpec q)
  ∧ (∀ (t : Till) (b : Nat) (rest : List Nat),
      serveBill t b = none → sellGo t (b :: rest) = false)
  ∧ sellTickets [25, 25, 50] = true
  ∧ sellTickets [25, 100] = false := by
  refine ⟨?_, ?_, by decide, by decide⟩
  · intro q h
    exact sellGo_eq_sellSpecGo q _ h
  · intro t b rest h
    simp [sellGo, h]

/-- Witness for C2: the spec-agreement conjunct on a concrete queue and the
short-circuit conjunct on a concrete unserviceable bill. -/
theorem sellTickets_spec_witness :
    sellTickets [25, 25, 50] = sellSpec [25, 25, 50]
  ∧ sellGo (Till.mk 0 0) [100] = false :=
  ⟨sellTickets_spec.1 _ (by decide),
   sellTickets_spec.2.1 _ _ [] (by decide)⟩

/-! ## group lemmas -/

theorem alookup_mapSet_self {κ ν : Type} [DecidableEq κ]
    (m : List (κ × ν)) (k : κ) (v : ν) :
    alookup (mapSet m k v) k = some v := by
  unfold mapSet
  cases hl : alookup m k with
  | some w => exact alookup_aset_self hl v
  | none => exact alookup_append_right hl v

theorem alookup_mapSet_ne {κ ν : Type} [DecidableEq κ]
    (m : List (κ × ν)) (k kx : κ) (v : ν) (h : kx ≠ k) :
    alookup (mapSet m k v) kx = alookup m kx := by
  unfold mapSet
  cases hl : alookup m k with
  | some w => exact alookup_aset_ne _ _ _ _ h
  | none => exact alookup_append_ne m (k, v) kx (fun he => h he.symm)

theorem akeys_mapSet {κ ν : Type} [DecidableEq κ]
    (m : List (κ × ν)) (k : κ) (v : ν) :
    akeys (mapSet m k v) = insKey (akeys m) k := by
  unfold mapSet insKey
  cases hl : alookup m k with
  | some w =>
    have hm : k ∈ akeys m := mem_of_alookup_some hl
    simp [hm, akeys_aset]
  | none =>
    have hm : k ∉ akeys m := (alookup_eq_none m k).mp hl
    simp [hm, akeys_append]

theorem akeys_mapOfEntries_aux {κ ν : Type} [DecidableEq κ]
    (es : List (κ × ν)) :
    ∀ m : List (κ × ν),
      akeys (es.foldl (fun m p => mapSet m p.1 p.2) m)
        = (es.map Prod.fst).foldl insKey (akeys m) := by
  induction es with
  | nil => intro m; rfl
  | cons e rest ih =>
    intro m
    rw [List.foldl_cons, ih, List.map_cons, List.foldl_cons, akeys_mapSet]

theorem akeys_mapOfEntries {κ ν : Type} [DecidableEq κ]
    (es : List (κ × ν)) :
    akeys (mapOfEntries es) = firstSeen (es.map Prod.fst) := by
  rw [mapOfEntries, akeys_mapOfEntries_aux]
  rfl

theorem alookup_mapOfEntries_const {κ ν : Type} [DecidableEq κ]
    (es : List (κ × ν)) (k : κ) (v : ν) :
    ∀ m : List (κ × ν), (∀ e ∈ es, e.1 = k → e.2 = v) →
      alookup (es.foldl (fun m p => mapSet m p.1 p.2) m) k
        = if k ∈ es.map Prod.fst then some v else alookup m k := by
  induction es with
  | nil => intro m _; simp
  | cons e rest ih =>
    intro m hc
    rw [List.foldl_cons]
    have ih2 := ih (mapSet m e.1 e.2)
      (fun x hx hk => hc x (List.mem_cons_of_mem _ hx) hk)
    rw [ih2]
    by_cases he : e.1 = k
    · have hv : e.2 = v := hc e (List.mem_cons_self e rest) he
      by_cases hr : k ∈ rest.map Prod.fst
      · rw [if_pos hr, if_pos (by simp [he, hr])]
      · rw [if_neg hr, if_pos (by simp [he])]
        rw [he, hv, alookup_mapSet_self]
    · rw [alookup_mapSet_ne m e.1 k e.2 (fun hx => he hx.symm)]
      by_cases hr : k ∈ rest.map Prod.fst
      · rw [if_pos hr, if_pos (by simp [hr])]
      · rw [if_neg hr, if_neg ?_]
        intro hx
        rw [List.map_cons, List.mem_cons] at hx
        rcases hx with h2 | h2
        · exact he h2.symm
        · exact hr h2

/-- C7: group returns one entry per distinct key (no duplicate keys), keys
in order of first appearance of the key in the input, and the value list
of every present key holds the selected values of exactly the input
elements bearing that key, in their original relative order. -/
theorem group_spec {α κ β : Type} [DecidableEq κ]
    (array : List α) (keySelector : α → κ) (valueSelector : α → β) :
    akeys (group array keySelector valueSelector)
        = firstSeen (array.map keySelector)
  ∧ (akeys (group array keySelector valueSelector)).Nodup
  ∧ ∀ k, alookup (group array keySelector valueSelector) k
      = if k ∈ array.map keySelector then
          some ((array.filter
            (fun i => decide (keySelector i = k))).map valueSelector)
        else none := by
  have hmapfst : (array.map (fun element =>
      (keySelector element,
        (array.filter (fun item =>
          keySelector element = keySelector item)).map valueSelector))).map
            Prod.fst = array.map keySelector := by
    rw [List.map_map]
    rfl
  refine ⟨?_, ?_, ?_⟩
  · rw [group, akeys_mapOfEntries, hmapfst]
  · rw [group, akeys_mapOfEntries, hmapfst]
    exact nodup_firstSeen _
  · intro k
    rw [group, mapOfEntries]
    rw [alookup_mapOfEntries_const _ k
      ((array.filter (fun i => decide (keySelector i = k))).map valueSelector)
      [] ?_]
    · rw [hmapfst]
      cases hm : decide (k ∈ array.map keySelector) <;> simp [alookup]
    · intro e he hk
      rcases List.mem_map.mp he with ⟨x, hx, hex⟩
      rw [← hex] at hk ⊢
      simp only at hk ⊢
      congr 1
      apply List.filter_congr
      intro y _
      rw [hk]
      by_cases hy : keySelector y = k
      · simp [hy]
      · have hy2 : ¬(k = keySelector y) := fun hz => hy hz.symm
        simp [hy, hy2]

/-- Witness for C7: the lookup conjunct evaluated at a concrete grouping
by country. -/
theorem group_spec_witness :
    alookup (group [("Belarus", "Brest"), ("Russia", "Omsk"),
      ("Belarus", "Minsk")] Prod.fst Prod.snd) "Belarus"
      = some ["Brest", "Minsk"] := by
  rw [(group_spec [("Belarus", "Brest"), ("Russia", "Omsk"),
    ("Belarus", "Minsk")] Prod.fst Prod.snd).2.2 "Belarus"]
  decide

/-! ## cssSelectorBuilder lemmas -/

/-- C6: the chain id(main).class(container).class(editable).stringify()
returns the string with the id and class fragments concatenated, and
combine(element(div), plus, element(table)).stringify() joins the two
fragment lists with the combinator surrounded by single spaces. -/
theorem cssSelectorBuilder_stringify_examples :
    ((id 0 "main" initSt).bind (fun p =>
      (classSel p.1 "container" p.2).bind (fun q =>
        (classSel q.1 "editable" q.2).map (fun w =>
          (stringify w.1 w.2).1)))
      = Except.ok "#main.container.editable")
  ∧ ((element 0 "div" initSt).bind (fun p =>
      (element 0 "table" p.2).map (fun q =>
        let c := combine 0 p.1 "+" q.1 q.2
        (stringify c.1 c.2).1))
      = Except.ok "div + table") := by
  exact ⟨by decide, by decide⟩

theorem order_nodup : order.Nodup := by decide

theorem order_drop_six : order.drop 6 = [] := rfl

theorem checkTypeFails_iff (fs : List Fragment) (t : String) :
    checkTypeFails fs t = true ↔ ∃ f ∈ fs, f.type = t := by
  unfold checkTypeFails
  rw [decide_eq_true_iff, ge_iff_le, Nat.one_le_iff_ne_zero,
    ← Nat.pos_iff_ne_zero, List.length_pos_iff_exists_mem]
  constructor
  · rintro ⟨f, hf⟩
    have h2 := List.mem_filter.mp hf
    exact ⟨f, h2.1, by simpa using h2.2⟩
  · rintro ⟨f, hf, ht⟩
    exact ⟨f, List.mem_filter.mpr ⟨hf, by simpa using ht⟩⟩

theorem checkOrderFails_iff (fs : List Fragment) (n : Nat) :
    checkOrderFails fs n = true ↔ ∃ f ∈ fs, f.type ∈ order.drop n := by
  unfold checkOrderFails
  by_cases hl : fs.length ≠ 0
  · rw [if_pos hl, List.any_eq_true]
    constructor
    · rintro ⟨t, ht, hc⟩
      have hmem : t ∈ fs.map Fragment.type := by simpa using hc
      obtain ⟨f, hf, rfl⟩ := List.mem_map.mp hmem
      exact ⟨f, hf, ht⟩
    · rintro ⟨f, hf, ht⟩
      refine ⟨f.type, ht, ?_⟩
      simpa using List.mem_map_of_mem Fragment.type hf
  · rw [if_neg hl]
    push_neg at hl
    rw [List.length_eq_zero] at hl
    subst hl
    simp

theorem mem_drop_iff_indexOf (t : String) :
    ∀ (l : List String) (n : Nat), l.Nodup →
      (t ∈ l.drop n ↔ t ∈ l ∧ n ≤ l.indexOf t) := by
  intro l
  induction l with
  | nil => intro n _; simp
  | cons x xs ih =>
    intro n hnd
    cases n with
    | zero => simp
    | succ m =>
      rw [List.drop_succ_cons, ih m (List.nodup_cons.mp hnd).2]
      by_cases hx : x = t
      · subst hx
        have hnx : x ∉ xs := (List.nodup_cons.mp hnd).1
        constructor
        · rintro ⟨hmem, _⟩
          exact absurd hmem hnx
        · rintro ⟨_, hle⟩
          rw [List.indexOf_cons_self] at hle
          omega
      · have hb : (x == t) = false := by
          rw [beq_eq_false_iff_ne]
          exact hx
        have hidx : (x :: xs).indexOf t = xs.indexOf t + 1 := by
          rw [List.indexOf_cons, hb]
          simp
        constructor
        · rintro ⟨hmem, hle⟩
          exact ⟨List.mem_cons_of_mem _ hmem, by rw [hidx]; omega⟩
        · rintro ⟨hmem, hle⟩
          rcases List.mem_cons.mp hmem with rfl | hmem2
          · exact absurd rfl hx
          · exact ⟨hmem2, by rw [hidx] at hle; omega⟩

theorem laterKindPresent_iff (k : SelKind) (fs : List Fragment) :
    laterKindPresent k fs ↔ checkOrderFails fs (k.orderIndex + 1) = true := by
  rw [checkOrderFails_iff]
  unfold laterKindPresent
  constructor
  · rintro ⟨f, hf, hmem, hlt⟩
    exact ⟨f, hf,
      (mem_drop_iff_indexOf f.type order (k.orderIndex + 1) order_nodup).mpr
        ⟨hmem, hlt⟩⟩
  · rintro ⟨f, hf, hd⟩
    have h2 := (mem_drop_iff_indexOf f.type order (k.orderIndex + 1)
      order_nodup).mp hd
    exact ⟨f, hf, h2.1, h2.2⟩

theorem dupViolation_iff (k : SelKind) (fs : List Fragment) :
    dupViolation k fs ↔
      ((k = SelKind.element ∨ k = SelKind.id ∨ k = SelKind.pseudoElement)
        ∧ checkTypeFails fs k.typeName = true) := by
  unfold dupViolation
  rw [checkTypeFails_iff]

theorem typeName_inj (a b : SelKind) (h : a.typeName = b.typeName) :
    a = b := by
  cases a <;> cases b <;> first
    | rfl
    | exact absurd h (by decide)

theorem indexOf_typeName (k : SelKind) :
    order.indexOf k.typeName = k.orderIndex := by
  cases k <;> rfl

theorem fragmentCall_cases (k : SelKind) (o : Nat) (v : String)
    (st : SelStore) :
    fragmentCall k o v st =
      if (k = SelKind.element ∨ k = SelKind.id ∨ k = SelKind.pseudoElement)
          ∧ checkTypeFails (st.getD o []) k.typeName = true then
        Except.error dupErrMsg
      else if checkOrderFails (st.getD o []) (k.orderIndex + 1) = true then
        Except.error orderErrMsg
      else
        Except.ok (pushFragment o st
          (Fragment.mk (kindText k v) k.typeName)) := by
  cases k with
  | element =>
    show element o v st = _
    unfold element
    generalize List.getD st o [] = fs
    by_cases h1 : checkTypeFails fs "element" = true
    · simp [h1, SelKind.typeName]
    · by_cases h2 : checkOrderFails fs 1 = true
      · simp [h1, h2, SelKind.typeName, SelKind.orderIndex]
      · simp [h1, h2, SelKind.typeName, SelKind.orderIndex, kindText]
  | id =>
    show id o v st = _
    unfold id
    generalize List.getD st o [] = fs
    by_cases h1 : checkTypeFails fs "id" = true
    · simp [h1, SelKind.typeName]
    · by_cases h2 : checkOrderFails fs 2 = true
      · simp [h1, h2, SelKind.typeName, SelKind.orderIndex]
      · simp [h1, h2, SelKind.typeName, SelKind.orderIndex, kindText]
  | classSel =>
    show classSel o v st = _
    unfold classSel
    generalize List.getD st o [] = fs
    by_cases h2 : checkOrderFails fs 3 = true
    · simp [h2, SelKind.typeName, SelKind.orderIndex]
    · simp [h2, SelKind.typeName, SelKind.orderIndex, kindText]
  | attr =>
    show attr o v st = _
    unfold attr
    generalize List.getD st o [] = fs
    by_cases h2 : checkOrderFails fs 4 = true
    · simp [h2, SelKind.typeName, SelKind.orderIndex]
    · simp [h2, SelKind.typeName, SelKind.orderIndex, kindText]
  | pseudoClass =>
    show pseudoClass o v st = _
    unfold pseudoClass
    generalize List.getD st o [] = fs
    by_cases h2 : checkOrderFails fs 5 = true
    · simp [h2, SelKind.typeName, SelKind.orderIndex]
    · simp [h2, SelKind.typeName, SelKind.orderIndex, kindText]
  | pseudoElement =>
    show pseudoElement o v st = _
    unfold pseudoElement
    generalize List.getD st o [] = fs
    have h6 : checkOrderFails fs 6 = false := by
      unfold checkOrderFails
      rw [order_drop_six]
      simp
    by_cases h1 : checkTypeFails fs "pseudoelement" = true
    · simp [h1, SelKind.typeName]
    · simp [h1, h6, SelKind.typeName, SelKind.orderIndex, kindText]

theorem foldl_bind_error (calls : List (SelKind × String)) (e : String) :
    calls.foldl
      (fun acc c => acc.bind (fun p => fragmentCall c.1 p.1 c.2 p.2))
      (Except.error e) = Except.error e := by
  induction calls with
  | nil => rfl
  | cons c rest ih =>
    rw [List.foldl_cons]
    exact ih

theorem runFrom_cons (o : Nat) (st : SelStore) (c : SelKind × String)
    (calls : List (SelKind × String)) :
    runFrom o st (c :: calls) =
      match fragmentCall c.1 o c.2 st with
      | Except.error e => Except.error e
      | Except.ok p => runFrom p.1 p.2 calls := by
  unfold runFrom
  rw [List.foldl_cons]
  have hb : (Except.ok (o, st)).bind
      (fun p => fragmentCall c.1 p.1 c.2 p.2) = fragmentCall c.1 o c.2 st :=
    rfl
  rw [hb]
  cases h : fragmentCall c.1 o c.2 st with
  | error e => exact foldl_bind_error calls e
  | ok p => rfl

theorem runFrom_good (calls : List (SelKind × String)) :
    ∀ (prev : List SelKind) (o : Nat) (st : SelStore),
      (st.getD o []).map Fragment.type = prev.map SelKind.typeName →
      goodChain (prev ++ calls.map Prod.fst) →
      ∃ r st2, runFrom o st calls = Except.ok (r, st2) := by
  induction calls with
  | nil =>
    intro prev o st _ _
    exact ⟨o, st, rfl⟩
  | cons c rest ih =>
    intro prev o st htypes hgood
    have hprevmem : ∀ f ∈ st.getD o [], ∃ kx ∈ prev, kx.typeName = f.type := by
      intro f hf
      have h1 : f.type ∈ (st.getD o []).map Fragment.type :=
        List.mem_map_of_mem Fragment.type hf
      rw [htypes] at h1
      obtain ⟨kx, hkx, he⟩ := List.mem_map.mp h1
      exact ⟨kx, hkx, he⟩
    have hgood2 := hgood
    rw [List.map_cons] at hgood2
    have hnd : ¬dupViolation c.1 (st.getD o []) := by
      rintro ⟨htrio, f, hf, hft⟩
      obtain ⟨kx, hkx, he⟩ := hprevmem f hf
      have hkc : kx = c.1 := typeName_inj _ _ (by rw [he, hft])
      rw [hkc] at hkx
      have hcount := hgood2.2 c.1 htrio
      rw [List.count_append] at hcount
      have h1 : 0 < prev.count c.1 := List.count_pos_iff.mpr hkx
      have h2 : 0 < (c.1 :: rest.map Prod.fst).count c.1 := by
        rw [List.count_cons_self]
        omega
      omega
    have hnl : ¬laterKindPresent c.1 (st.getD o []) := by
      rintro ⟨f, hf, hmem, hlt⟩
      obtain ⟨kx, hkx, he⟩ := hprevmem f hf
      rw [← he, indexOf_typeName] at hlt
      have hpw := hgood2.1
      rw [List.pairwise_append] at hpw
      have hle := hpw.2.2 kx hkx c.1 (List.mem_cons_self _ _)
      omega
    have hok : fragmentCall c.1 o c.2 st
        = Except.ok (pushFragment o st
            (Fragment.mk (kindText c.1 c.2) c.1.typeName)) := by
      rw [fragmentCall_cases]
      rw [if_neg (fun hc =>
            hnd ((dupViolation_iff c.1 (st.getD o [])).mpr hc)),
          if_neg (fun hc =>
            hnl ((laterKindPresent_iff c.1 (st.getD o [])).mpr hc))]
    rw [runFrom_cons, hok]
    simp only [pushFragment]
    apply ih (prev ++ [c.1])
    · have hlen : (st.set o []).length = st.length := by simp
      rw [← hlen, getD_append_length, List.map_append, htypes,
        List.map_append]
      rfl
    · rw [List.append_assoc, List.singleton_append]
      exact hgood2

/-- C1 amended: a fragment-adding call on an accumulated list that already
holds a fragment of a duplicated element, id or pseudo-element kind fails
with the duplicate error — including when a later kind is also present,
because the duplicate check runs before the order check; a call whose kind
comes earlier in the fixed order than a kind already present, and which is
not such a duplicate, fails with the ordering error; a call with neither
violation succeeds; and every chain respecting order and uniqueness runs
with no error. -/
theorem cssSelectorBuilder_validation :
    (∀ (k : SelKind) (o : Nat) (v : String) (st : SelStore),
      dupViolation k (st.getD o []) →
        fragmentCall k o v st = Except.error dupErrMsg)
  ∧ (∀ (k : SelKind) (o : Nat) (v : String) (st : SelStore),
      ¬dupViolation k (st.getD o []) → laterKindPresent k (st.getD o []) →
        fragmentCall k o v st = Except.error orderErrMsg)
  ∧ (∀ (k : SelKind) (o : Nat) (v : String) (st : SelStore),
      ¬dupViolation k (st.getD o []) → ¬laterKindPresent k (st.getD o []) →
        ∃ r st2, fragmentCall k o v st = Except.ok (r, st2))
  ∧ (∀ calls : List (SelKind × String), goodChain (calls.map Prod.fst) →
      ∃ r st2, runChain calls = Except.ok (r, st2)) := by
  refine ⟨?_, ?_, ?_, ?_⟩
  · intro k o v st hd
    rw [fragmentCall_cases,
      if_pos ((dupViolation_iff k (st.getD o [])).mp hd)]
  · intro k o v st hd hl
    rw [fragmentCall_cases,
      if_neg (fun hc => hd ((dupViolation_iff k (st.getD o [])).mpr hc)),
      if_pos ((laterKindPresent_iff k (st.getD o [])).mp hl)]
  · intro k o v st hd hl
    rw [fragmentCall_cases,
      if_neg (fun hc => hd ((dupViolation_iff k (st.getD o [])).mpr hc)),
      if_neg (fun hc => hl ((laterKindPresent_iff k (st.getD o [])).mpr hc))]
    exact ⟨_, _, rfl⟩
  · intro calls hg
    exact runFrom_good calls [] 0 initSt rfl (by simpa using hg)

/-- C1 counterexample: in the chain element(a).class(b).element(c), the
third call adds a kind (element) that comes earlier in the fixed order
than a kind already present (class), yet it fails with the duplicate
error, not the ordering error, because the duplicate check runs first. -/
theorem cssSelectorBuilder_validation_counterexample :
    runChain [(SelKind.element, "a"), (SelKind.classSel, "b")]
        = Except.ok (2, [[], [],
            [Fragment.mk "a" "element", Fragment.mk ".b" "class"]])
  ∧ laterKindPresent SelKind.element
      [Fragment.mk "a" "element", Fragment.mk ".b" "class"]
  ∧ runChain [(SelKind.element, "a"), (SelKind.classSel, "b"),
      (SelKind.element, "c")] = Except.error dupErrMsg
  ∧ dupErrMsg ≠ orderErrMsg := by
  exact ⟨by decide, by decide, by decide, by decide⟩

/-- Witness for C1: the duplicate-error, ordering-error and success
conjuncts applied at concrete builder states and a concrete good chain. -/
theorem cssSelectorBuilder_validation_witness :
    fragmentCall SelKind.id 0 "x" [[Fragment.mk "#y" "id"]]
        = Except.error dupErrMsg
  ∧ fragmentCall SelKind.element 0 "x" [[Fragment.mk ".y" "class"]]
        = Except.error orderErrMsg
  ∧ (∃ r st2, runChain [(SelKind.element, "div"), (SelKind.id, "main")]
        = Except.ok (r, st2)) :=
  ⟨cssSelectorBuilder_validation.1 SelKind.id 0 "x" _ (by decide),
   cssSelectorBuilder_validation.2.1 SelKind.element 0 "x" _
     (by decide) (by decide),
   cssSelectorBuilder_validation.2.2.2 _ (by
     refine ⟨by decide, ?_⟩
     intro k hk
     rcases hk with rfl | rfl | rfl <;> decide)⟩

/-- C10: every builder operation leaves the receiver with an empty
fragment list: a successful fragment-adding call, combine, and stringify
each reset the receiver before returning, so stringify is consuming — a
second stringify of the same object returns the empty string — and a
second continuation from a saved intermediate builder has lost the
fragments that builder held: in the concrete chain the receiver built from
element(div) yields ".b" for its second continuation, not "div.b". -/
theorem cssSelectorBuilder_consuming :
    (∀ (k : SelKind) (o : Nat) (v : String) (st : SelStore) (r : Nat)
        (st2 : SelStore), o < st.length →
      fragmentCall k o v st = Except.ok (r, st2) → st2.getD o [] = [])
  ∧ (∀ (o s1 : Nat) (c : String) (s2 : Nat) (st : SelStore), o < st.length →
      ((combine o s1 c s2 st).2).getD o [] = [])
  ∧ (∀ (o : Nat) (st : SelStore), o < st.length →
      ((stringify o st).2).getD o [] = [])
  ∧ (∀ (o : Nat) (st : SelStore), o < st.length →
      (stringify o (stringify o st).2).1 = "")
  ∧ ((element 0 "div" initSt).bind (fun b =>
      (classSel b.1 "a" b.2).bind (fun c1 =>
        (classSel b.1 "b" c1.2).map (fun c2 => (stringify c2.1 c2.2).1)))
      = Except.ok ".b")
  ∧ ((Except.ok ".b" : Except String String) ≠ Except.ok "div.b") := by
  have hreset : ∀ (o : Nat) (st : SelStore) (x : List Fragment),
      o < st.length → (((st.set o []) ++ [x]).getD o []) = [] := by
    intro o st x ho
    rw [getD_append_lt _ _ _ _ (by simpa using ho), getD_set_self, if_pos ho]
  refine ⟨?_, ?_, ?_, ?_, by decide, by decide⟩
  · intro k o v st r st2 ho hok
    rw [fragmentCall_cases] at hok
    split at hok
    · exact absurd hok (by simp)
    · split at hok
      · exact absurd hok (by simp)
      · injection hok with hp
        have h2 : st2 = (st.set o []) ++
            [(st.getD o []) ++ [Fragment.mk (kindText k v) k.typeName]] :=
          (congrArg Prod.snd hp).symm
        rw [h2]
        exact hreset o st _ ho
  · intro o s1 c s2 st ho
    exact hreset o st _ ho
  · intro o st ho
    show (st.set o []).getD o [] = []
    rw [getD_set_self, if_pos ho]
  · intro o st ho
    show ((((st.set o []).getD o []).map Fragment.selector).foldl
      (· ++ ·) "") = ""
    rw [getD_set_self, if_pos ho]
    rfl

/-- Witness for C10: the reset and consuming-stringify conjuncts applied
at concrete builder objects. -/
theorem cssSelectorBuilder_consuming_witness :
    ([[], [Fragment.mk "x" "element"]] : SelStore).getD 0 [] = []
  ∧ ((stringify 0 [[Fragment.mk "a" "element"]]).2).getD 0 [] = []
  ∧ (stringify 0 (stringify 0 [[Fragment.mk "a" "element"]]).2).1 = ""
  ∧ ((combine 0 1 "+" 2 [[Fragment.mk "q" "element"]]).2).getD 0 [] = [] :=
  ⟨cssSelectorBuilder_consuming.1 SelKind.element 0 "x" initSt 1
      [[], [Fragment.mk "x" "element"]] (by decide) (by decide),
   cssSelectorBuilder_consuming.2.2.1 0 [[Fragment.mk "a" "element"]]
     (by decide),
   cssSelectorBuilder_consuming.2.2.2.1 0 [[Fragment.mk "a" "element"]]
     (by decide),
   cssSelectorBuilder_consuming.2.1 0 1 "+" 2 [[Fragment.mk "q" "element"]]
     (by decide)⟩

/-! ## sortCitiesArray lemmas -/

theorem insertRec_perm (x : CityRec) (l : List CityRec) :
    (insertRec x l).Perm (x :: l) := by
  induction l with
  | nil => exact List.Perm.refl _
  | cons y ys ih =>
    unfold insertRec
    by_cases h : jsSortLe x y = true
    · rw [if_pos h]
    · rw [if_neg h]
      exact (List.Perm.cons y ih).trans (List.Perm.swap x y ys)

theorem jsSortCities_perm (l : List CityRec) : (jsSortCities l).Perm l := by
  induction l with
  | nil => exact List.Perm.refl _
  | cons x xs ih =>
    unfold jsSortCities
    exact (insertRec_perm x (jsSortCities xs)).trans (List.Perm.cons x ih)

theorem firstChar_of_ne (s : String) (h : s ≠ "") :
    firstChar s = some (s.data.headD ' ') := by
  unfold firstChar
  cases hd : s.data with
  | nil =>
    exfalso
    apply h
    cases s with
    | mk data =>
      simp only at hd
      rw [hd]
  | cons c cs => simp [hd]

theorem jsSortLe_iff {a b : CityRec} (ha : NEC a) (hb : NEC b) :
    jsSortLe a b = true ↔ claimLe a b := by
  unfold jsSortLe
  rw [decide_eq_true_iff]
  unfold cityCmp claimLe
  rw [firstChar_of_ne a.country ha.1, firstChar_of_ne b.country hb.1,
      firstChar_of_ne a.city ha.2, firstChar_of_ne b.city hb.2]
  simp only [jsCharEq, jsCharGT, decide_eq_true_eq]
  by_cases h1 : a.country.data.headD ' ' = b.country.data.headD ' '
  · rw [if_pos h1]
    by_cases h2 : b.city.data.headD ' ' < a.city.data.headD ' '
    · rw [if_pos h2]
      constructor
      · intro hx
        norm_num at hx
      · rintro (hc | ⟨_, hle⟩)
        · rw [h1] at hc
          exact absurd hc (lt_irrefl _)
        · exact absurd h2 (not_lt.mpr hle)
    · rw [if_neg h2]
      constructor
      · intro _
        exact Or.inr ⟨h1, not_lt.mp h2⟩
      · intro _
        norm_num
  · rw [if_neg h1]
    by_cases h2 : b.country.data.headD ' ' < a.country.data.headD ' '
    · rw [if_pos h2]
      constructor
      · intro hx
        norm_num at hx
      · rintro (hc | ⟨hc, _⟩)
        · exact absurd hc (not_lt.mpr (le_of_lt h2))
        · exact absurd hc h1
    · rw [if_neg h2]
      constructor
      · intro _
        exact Or.inl (lt_of_le_of_ne (not_lt.mp h2) h1)
      · intro _
        norm_num

theorem claimLe_total (a b : CityRec) : claimLe a b ∨ claimLe b a := by
  unfold claimLe
  rcases lt_trichotomy (a.country.data.headD ' ') (b.country.data.headD ' ')
    with h | h | h
  · exact Or.inl (Or.inl h)
  · rcases le_total (a.city.data.headD ' ') (b.city.data.headD ' ')
      with h2 | h2
    · exact Or.inl (Or.inr ⟨h, h2⟩)
    · exact Or.inr (Or.inr ⟨h.symm, h2⟩)
  · exact Or.inr (Or.inl h)

theorem claimLe_trans {a b c : CityRec} (h1 : claimLe a b)
    (h2 : claimLe b c) : claimLe a c := by
  unfold claimLe at h1 h2 ⊢
  rcases h1 with h1 | ⟨h1e, h1c⟩ <;> rcases h2 with h2 | ⟨h2e, h2c⟩
  · exact Or.inl (h1.trans h2)
  · exact Or.inl (lt_of_lt_of_le h1 (le_of_eq h2e))
  · exact Or.inl (lt_of_le_of_lt (le_of_eq h1e) h2)
  · exact Or.inr ⟨h1e.trans h2e, h1c.trans h2c⟩

theorem pairwise_insertRec (x : CityRec) (l : List CityRec)
    (hx : NEC x) (hl : ∀ y ∈ l, NEC y) (hs : List.Pairwise claimLe l) :
    List.Pairwise claimLe (insertRec x l) := by
  induction l with
  | nil => simp [insertRec]
  | cons y ys ih =>
    unfold insertRec
    rcases List.pairwise_cons.mp hs with ⟨hy, hys⟩
    have hyN : NEC y := hl y (List.mem_cons_self _ _)
    by_cases h : jsSortLe x y = true
    · rw [if_pos h]
      refine List.Pairwise.cons ?_ hs
      intro z hz
      have hxy : claimLe x y := (jsSortLe_iff hx hyN).mp h
      rcases List.mem_cons.mp hz with rfl | hz2
      · exact hxy
      · exact claimLe_trans hxy (hy z hz2)
    · rw [if_neg h]
      have hyx : claimLe y x := by
        rcases claimLe_total x y with hc | hc
        · exact absurd ((jsSortLe_iff hx hyN).mpr hc) h
        · exact hc
      refine List.Pairwise.cons ?_
        (ih (fun z hz => hl z (List.mem_cons_of_mem _ hz)) hys)
      intro z hz
      have hz3 := (insertRec_perm x ys).mem_iff.mp hz
      rcases List.mem_cons.mp hz3 with rfl | hz4
      · exact hyx
      · exact hy z hz4

theorem pairwise_jsSortCities (l : List CityRec)
    (hl : ∀ y ∈ l, NEC y) : List.Pairwise claimLe (jsSortCities l) := by
  induction l with
  | nil => simp [jsSortCities]
  | cons x xs ih =>
    unfold jsSortCities
    apply pairwise_insertRec x _ (hl x (List.mem_cons_self _ _))
    · intro y hy
      exact hl y
        (List.mem_cons_of_mem _ ((jsSortCities_perm xs).mem_iff.mp hy))
    · exact ih (fun y hy => hl y (List.mem_cons_of_mem _ hy))

/-- C9: sortCitiesArray sorts the aliased array in place — the store cell
at the input reference receives the sorted permutation of its old content
and the very same reference is returned — ascending by country then by
city when the countries tie, comparing only the first character of each
field; stated for records with nonempty country and city names, since on
an empty field the comparator reads undefined and ECMAScript leaves the
order implementation-defined. -/
theorem sortCitiesArray_spec :
    ∀ (store : CityStore) (arr : Nat),
      (∀ rec ∈ store.getD arr [], rec.country ≠ "" ∧ rec.city ≠ "") →
      ((sortCitiesArray store arr).2 = arr
       ∧ (sortCitiesArray store arr).1
           = store.set arr (jsSortCities (store.getD arr []))
       ∧ (jsSortCities (store.getD arr [])).Perm (store.getD arr [])
       ∧ List.Pairwise claimLe (jsSortCities (store.getD arr []))) := by
  intro store arr h
  exact ⟨rfl, rfl, jsSortCities_perm _, pairwise_jsSortCities _ h⟩

/-- Witness for C9: the sort of a concrete one-array store with two
records. -/
theorem sortCitiesArray_spec_witness :
    (sortCitiesArray [[CityRec.mk "Russia" "Moscow",
        CityRec.mk "Belarus" "Minsk"]] 0).2 = 0
  ∧ List.Pairwise claimLe (jsSortCities
      [CityRec.mk "Russia" "Moscow", CityRec.mk "Belarus" "Minsk"]) := by
  have h := sortCitiesArray_spec [[CityRec.mk "Russia" "Moscow",
    CityRec.mk "Belarus" "Minsk"]] 0 (by decide)
  exact ⟨h.1, h.2.2.2⟩

end ObjectsTasks
